import Mathlib

/-
  Verification development for the meeting-transcript analysis pipeline
  (src/main.py).  Python strings are embedded as lists of code points
  (`Str := List Nat`); `S` converts a Lean string literal to that
  representation.  Python's `str.lower` is modelled on the ASCII range
  (the only range exercised by this program), `str.strip` strips the
  ASCII whitespace code points, and the `in` substring operator is
  modelled by `containsSub`.
-/

namespace MeetingAgent

/-- Code-point strings: the embedding of Python `str`. -/
abbrev Str := List Nat

/-- Converts a Lean string literal into its code-point embedding. -/
def S (s : String) : Str := s.data.map Char.toNat

/-- Model of Python `str.lower` on one code point (ASCII range). -/
def pyLower (n : Nat) : Nat := if 65 ≤ n ∧ n ≤ 90 then n + 32 else n

/-- Model of Python `str.lower`. -/
def lower (s : Str) : Str := s.map pyLower

/-- Python's whitespace predicate (`str.isspace`, the character class
stripped by `str.strip()` and matched by the regex class `\s`): the code
points 0x09-0x0D, 0x1C-0x1F, space, NEL, NBSP, and the Unicode space
separators. -/
def isWs (n : Nat) : Bool :=
  decide (n = 32 ∨ (9 ≤ n ∧ n ≤ 13) ∨ (28 ≤ n ∧ n ≤ 31) ∨ n = 133 ∨ n = 160 ∨
    n = 5760 ∨ (8192 ≤ n ∧ n ≤ 8202) ∨ n = 8232 ∨ n = 8233 ∨ n = 8239 ∨
    n = 8287 ∨ n = 12288)

/-- Model of Python `str.strip()`: drop whitespace from both ends. -/
def pstrip (s : Str) : Str := (((s.dropWhile isWs).reverse.dropWhile isWs)).reverse

/-- Model of Python `str.split('\n')` (code point 10). -/
def splitNL : Str → List Str
  | [] => [[]]
  | c :: cs =>
    if c = 10 then [] :: splitNL cs
    else
      match splitNL cs with
      | r :: rs => (c :: r) :: rs
      | [] => [[c]]

/-- `transcript.strip().split('\n')`, the line decomposition every fallback
extractor in src/main.py starts from. -/
def splitLines (t : Str) : List Str := splitNL (pstrip t)

/-- Model of Python's substring test `needle in hay`. -/
def containsSub (needle : Str) : Str → Bool
  | [] => needle.isEmpty
  | c :: rest => needle.isPrefixOf (c :: rest) || containsSub needle rest

/-- `line.split(':', 1)[1]`: everything after the first colon (code point 58). -/
def afterFirstColon (l : Str) : Str := (l.dropWhile (fun c => !(c == 58))).drop 1

/-- `line.split(':')[0]`: everything before the first colon. -/
def beforeFirstColon (l : Str) : Str := l.takeWhile (fun c => !(c == 58))

/-- Decimal digit as a code point. -/
def digitChr (n : Nat) : Nat := 48 + n

/-- Fuel-driven decimal rendering helper. -/
def natToStrAux : Nat → Nat → Str
  | 0, _ => []
  | f + 1, n => if n < 10 then [digitChr n] else natToStrAux f (n / 10) ++ [digitChr (n % 10)]

/-- Model of Python's decimal rendering of a non-negative int in an f-string. -/
def natToStr (n : Nat) : Str := natToStrAux (n + 1) n

/-- The Task record of src/main.py (heuristic path: `due_date` is modelled as
an absolute day number, the clock being passed explicitly as `today`). -/
structure Task where
  description : Str
  assignee : Str
  due_date : Nat
  priority : Str
  status : Str := S "Pending"
deriving Repr, DecidableEq

/-- Trigger phrases of `extract_tasks_fallback`. -/
def taskTriggerKws : List Str :=
  [S "will", S "need to", S "should", S "action item", S "todo", S "task",
   S "follow up", S "deadline"]

/-- `any(kw in line_lower for kw in keywords)` in `extract_tasks_fallback`. -/
def matchesTaskKw (line : Str) : Bool :=
  taskTriggerKws.any (fun kw => containsSub kw (lower line))

/-- The per-attendee test of the assignee loop in `extract_tasks_fallback`:
`att.lower() in line_lower or (': ' in line and att.lower() in line.split(':')[0].lower())`. -/
def attMatches (line att : Str) : Bool :=
  containsSub (lower att) (lower line) ||
    (containsSub (S ": ") line && containsSub (lower att) (lower (beforeFirstColon line)))

/-- The assignee computed by the loop-with-break in `extract_tasks_fallback`. -/
def assigneeOf (attendees : List Str) (line : Str) : Str :=
  (attendees.find? (fun att => attMatches line att)).getD (S "Unassigned")

/-- The priority cascade of `extract_tasks_fallback`. -/
def priorityOf (line : Str) : Str :=
  let ll := lower line
  if containsSub (S "urgent") ll || containsSub (S "asap") ll ||
      containsSub (S "critical") ll then S "High"
  else if containsSub (S "when possible") ll || containsSub (S "eventually") ll then S "Low"
  else S "Medium"

/-- The due-date cascade of `extract_tasks_fallback` (day numbers). -/
def dueOf (today : Nat) (line : Str) : Nat :=
  let ll := lower line
  if containsSub (S "tomorrow") ll then today + 1
  else if containsSub (S "end of week") ll then today + 5
  else today + 7

/-- `line.split(':', 1)[1].strip() if ':' in line else line.strip()`. -/
def descOf (line : Str) : Str :=
  pstrip (if (58 : Nat) ∈ line then afterFirstColon line else line)

/-- The Task built from one matching line in `extract_tasks_fallback`. -/
def taskOfLine (attendees : List Str) (today : Nat) (line : Str) : Task :=
  { description := (descOf line).take 100
    assignee := assigneeOf attendees line
    due_date := dueOf today line
    priority := priorityOf line }

/-- The accumulation loop of `extract_tasks_fallback`. -/
def tasksGo (attendees : List Str) (today : Nat) : List Str → List Task
  | [] => []
  | line :: rest =>
    if matchesTaskKw line then taskOfLine attendees today line :: tasksGo attendees today rest
    else tasksGo attendees today rest

/-- `extract_tasks_fallback` of src/main.py. -/
def extract_tasks_fallback (transcript : Str) (attendees : List Str) (today : Nat) : List Task :=
  tasksGo attendees today (splitLines transcript)

/-- Trigger phrases of `extract_decisions_fallback`. -/
def decisionKws : List Str :=
  [S "decided", S "agreed", S "approved", S "confirmed", S "will go with", S "final decision"]

/-- The line test of `extract_decisions_fallback`. -/
def matchesDecKw (line : Str) : Bool :=
  decisionKws.any (fun kw => containsSub kw (lower line))

/-- The accumulation loop of `extract_decisions_fallback`. -/
def decisionsGo : List Str → List Str
  | [] => []
  | line :: rest =>
    if matchesDecKw line then descOf line :: decisionsGo rest else decisionsGo rest

/-- `extract_decisions_fallback` of src/main.py. -/
def extract_decisions_fallback (transcript : Str) : List Str :=
  decisionsGo (splitLines transcript)

/-- The four keyword sets and topic labels of `extract_summary_fallback`,
in source order. -/
def topicKwSets : List (List Str × Str) :=
  [([S "project", S "update"], S "Project Updates"),
   ([S "deadline", S "timeline"], S "Timeline Discussion"),
   ([S "budget", S "cost"], S "Budget Review"),
   ([S "issue", S "problem", S "blocker"], S "Blockers & Issues")]

/-- The labels one line adds in `extract_summary_fallback` (the four `if`s over
`content = line.split(':', 1)[1].strip().lower()`). -/
def lineLabels (line : Str) : List Str :=
  if (58 : Nat) ∈ line then
    let content := lower (pstrip (afterFirstColon line))
    topicKwSets.filterMap (fun p =>
      if p.1.any (fun kw => containsSub kw content) then some p.2 else none)
  else []

/-- Set insertion (`topics.add(...)`), modelled as order-preserving
insert-if-new over a duplicate-free list. -/
def insertIfNew (acc : List Str) (lab : Str) : List Str :=
  if lab ∈ acc then acc else acc ++ [lab]

/-- The accumulated topic set of `extract_summary_fallback`. -/
def topicsOf (lines : List Str) : List Str :=
  lines.foldl (fun acc line => (lineLabels line).foldl insertIfNew acc) []

/-- `extract_summary_fallback` of src/main.py (the join order of the Python
set is unspecified; this model joins in first-insertion order). -/
def extract_summary_fallback (transcript : Str) : Str :=
  let lines := splitLines transcript
  let topics := topicsOf lines
  S "Meeting covered " ++ natToStr lines.length ++ S " discussion points" ++
    (if topics.isEmpty then [] else S " including: " ++ List.intercalate (S ", ") topics ++ S ".")

/-- JSON values as produced by `json.loads` in src/main.py.  A number is
kept as its exact decimal value, `mantissa * 10 ^ exp10` (plus the
non-standard `NaN` and signed `Infinity` constants `json.loads` accepts by
default); the conversion to an IEEE float and Python's int/float type split
are not modelled, as no code in src/main.py inspects decoded numeric
values. -/
inductive JVal where
  | null : JVal
  | bool (b : Bool) : JVal
  | num (mantissa : Int) (exp10 : Int) : JVal
  | nan : JVal
  | inf (neg : Bool) : JVal
  | str (s : Str) : JVal
  | arr (elems : List JVal) : JVal
  | obj (members : List (Str × JVal)) : JVal

/-- The whitespace the `json` scanner skips between tokens: exactly
space, tab, newline and carriage return (narrower than `str.strip`). -/
def isJsonWs (n : Nat) : Bool := decide (n = 32 ∨ n = 9 ∨ n = 10 ∨ n = 13)

/-- Skip JSON inter-token whitespace. -/
def skipWsJ (s : Str) : Str := s.dropWhile isJsonWs

/-- ASCII decimal digit test. -/
def isDigitCp (n : Nat) : Bool := decide (48 ≤ n ∧ n ≤ 57)

/-- Value of a digit run. -/
def digitsToNat (ds : Str) : Nat := ds.foldl (fun a d => a * 10 + (d - 48)) 0

/-- Value of a hexadecimal digit code point. -/
def hexVal (n : Nat) : Option Nat :=
  if 48 ≤ n ∧ n ≤ 57 then some (n - 48)
  else if 97 ≤ n ∧ n ≤ 102 then some (n - 87)
  else if 65 ≤ n ∧ n ≤ 70 then some (n - 55)
  else none

/-- Exactly four hexadecimal digits, as in a `\uXXXX` escape. -/
def parse4Hex : Str → Option (Nat × Str)
  | a :: b :: c :: d :: rest =>
    match hexVal a, hexVal b, hexVal c, hexVal d with
    | some x, some y, some z, some w => some (((x * 16 + y) * 16 + z) * 16 + w, rest)
    | _, _, _, _ => none
  | _ => none

/-- The single-character JSON string escapes. -/
def escChar (e : Nat) : Option Nat :=
  if e = 34 then some 34 else if e = 92 then some 92 else if e = 47 then some 47
  else if e = 98 then some 8 else if e = 102 then some 12 else if e = 110 then some 10
  else if e = 114 then some 13 else if e = 116 then some 9 else none

/-- One escape after the backslash, as `json.loads` decodes it: the
single-character escapes, and `\uXXXX` with surrogate-pair combination (a
high surrogate followed by `\u` and a low surrogate becomes one
supplementary code point; an unpaired surrogate is kept as is, exactly as
Python keeps lone surrogates in `str`). -/
def parseEsc (cs : Str) : Option (Nat × Str) :=
  match cs with
  | [] => none
  | e :: cs2 =>
    if e = 117 then
      match parse4Hex cs2 with
      | none => none
      | some (u1, rest1) =>
        if 55296 ≤ u1 ∧ u1 ≤ 56319 then
          match rest1 with
          | 92 :: 117 :: rest2 =>
            match parse4Hex rest2 with
            | some (u2, rest3) =>
              if 56320 ≤ u2 ∧ u2 ≤ 57343 then
                some (65536 + (u1 - 55296) * 1024 + (u2 - 56320), rest3)
              else some (u1, rest1)
            | none => some (u1, rest1)
          | _ => some (u1, rest1)
        else some (u1, rest1)
    else escChar e |>.map (fun r => (r, cs2))

/-- Fueled scan of a JSON string body; each step consumes at least one
code point, so fuel `length + 1` never runs out. -/
def parseStrGo : Nat → Str → Option (Str × Str)
  | 0, _ => none
  | f + 1, s =>
    match s with
    | [] => none
    | c :: cs =>
      if c = 34 then some ([], cs)
      else if c = 92 then
        match parseEsc cs with
        | none => none
        | some (r, rest) =>
          match parseStrGo f rest with
          | none => none
          | some (acc, rest2) => some (r :: acc, rest2)
      else if c < 32 then none
      else
        match parseStrGo f cs with
        | none => none
        | some (acc, rest2) => some (c :: acc, rest2)

/-- Parse a JSON string body after the opening quote; returns content and
rest.  Raw control characters are rejected (`strict=True` default). -/
def parseStrBody (s : Str) : Option (Str × Str) := parseStrGo (s.length + 1) s

/-- The optional fraction part `.digits` of a JSON number: a dot must be
followed by at least one digit. -/
def parseFrac (s : Str) : Option (Str × Str) :=
  match s with
  | 46 :: rest =>
    let ds := rest.takeWhile isDigitCp
    if ds = [] then none else some (ds, rest.dropWhile isDigitCp)
  | _ => some ([], s)

/-- The optional exponent part `[eE][+-]?digits` of a JSON number. -/
def parseExp (s : Str) : Option (Int × Str) :=
  match s with
  | c :: rest =>
    if c = 101 ∨ c = 69 then
      let (esign, s1) : Bool × Str :=
        match rest with
        | 43 :: r => (false, r)
        | 45 :: r => (true, r)
        | _ => (false, rest)
      let ds := s1.takeWhile isDigitCp
      if ds = [] then none
      else
        let v : Int := Int.ofNat (digitsToNat ds)
        some (if esign then -v else v, s1.dropWhile isDigitCp)
    else some (0, s)
  | [] => some (0, [])

/-- Parse a JSON number literal per the grammar `json.loads` uses:
`-?(0|[1-9]digits)(.digits)?([eE][+-]?digits)?`, no leading zeros.  Note a
trailing malformed fraction or exponent makes this parser fail where
Python's regex would match a shorter literal; the leftover `.`/`e` then
makes the surrounding decode fail in Python too, so `json_loads` classifies
identically. -/
def parseNum (s : Str) : Option (JVal × Str) :=
  let (neg, s1) := match s with
    | 45 :: rest => (true, rest)
    | _ => (false, s)
  let ints := s1.takeWhile isDigitCp
  let r1 := s1.dropWhile isDigitCp
  if ints = [] then none
  else if ints.length > 1 ∧ ints.headI = 48 then none
  else
    match parseFrac r1 with
    | none => none
    | some (fracs, r2) =>
      match parseExp r2 with
      | none => none
      | some (expv, rest) =>
        let m : Int := Int.ofNat (digitsToNat (ints ++ fracs))
        some (JVal.num (if neg then -m else m) (expv - Int.ofNat fracs.length), rest)

mutual

/-- Fueled parser for one JSON value (model of `json.loads` grammar). -/
def parseVal : Nat → Str → Option (JVal × Str)
  | 0, _ => none
  | f + 1, s =>
    match s with
    | [] => none
    | c :: cs =>
      if c = 123 then
        match parseMembers f (skipWsJ cs) true with
        | none => none
        | some (ms, rest) => some (JVal.obj ms, rest)
      else if c = 91 then
        match parseElems f (skipWsJ cs) true with
        | none => none
        | some (vs, rest) => some (JVal.arr vs, rest)
      else if c = 34 then
        match parseStrBody cs with
        | none => none
        | some (r, rest) => some (JVal.str r, rest)
      else if c = 116 then
        if (S "rue").isPrefixOf cs then some (JVal.bool true, cs.drop 3) else none
      else if c = 102 then
        if (S "alse").isPrefixOf cs then some (JVal.bool false, cs.drop 4) else none
      else if c = 110 then
        if (S "ull").isPrefixOf cs then some (JVal.null, cs.drop 3) else none
      else if c = 78 then
        if (S "aN").isPrefixOf cs then some (JVal.nan, cs.drop 2) else none
      else if c = 73 then
        if (S "nfinity").isPrefixOf cs then some (JVal.inf false, cs.drop 7) else none
      else if c = 45 then
        if (S "Infinity").isPrefixOf cs then some (JVal.inf true, cs.drop 8)
        else parseNum s
      else parseNum s

/-- Array elements after `[` (when `first`, an immediate `]` closes it). -/
def parseElems : Nat → Str → Bool → Option (List JVal × Str)
  | 0, _, _ => none
  | f + 1, s, first =>
    match s, first with
    | 93 :: rest, true => some ([], rest)
    | _, _ =>
      match parseVal f s with
      | none => none
      | some (v, rest) =>
        match skipWsJ rest with
        | 93 :: rest2 => some ([v], rest2)
        | 44 :: rest2 =>
          match parseElems f (skipWsJ rest2) false with
          | none => none
          | some (vs, r) => some (v :: vs, r)
        | _ => none

/-- Object members after `\x7b` (when `first`, an immediate `\x7d` closes it). -/
def parseMembers : Nat → Str → Bool → Option (List (Str × JVal) × Str)
  | 0, _, _ => none
  | f + 1, s, first =>
    match s, first with
    | 125 :: rest, true => some ([], rest)
    | 34 :: cs, _ =>
      match parseStrBody cs with
      | none => none
      | some (k, rest) =>
        match skipWsJ rest with
        | 58 :: rest2 =>
          match parseVal f (skipWsJ rest2) with
          | none => none
          | some (v, rest3) =>
            match skipWsJ rest3 with
            | 125 :: rest4 => some ([(k, v)], rest4)
            | 44 :: rest4 =>
              match parseMembers f (skipWsJ rest4) false with
              | none => none
              | some (ms, r) => some ((k, v) :: ms, r)
            | _ => none
        | _ => none
    | _, _ => none

end

/-- Model of `json.loads` with its default flags: the whole input must be
one value up to `[ \t\n\r]` whitespace; `none` is the `JSONDecodeError`
branch.  Not modelled: the interpreter's recursion limit (a resource bound,
raising `RecursionError` on input nested beyond roughly a thousand levels)
and IEEE rounding of number literals (see `JVal`). -/
def json_loads (s : Str) : Option JVal :=
  match parseVal (s.length + 1) (skipWsJ s) with
  | none => none
  | some (v, rest) => if skipWsJ rest = [] then some v else none

/-- The response sanitization of `extract_tasks_ai` / `extract_decisions_ai`:
`re.sub(r'^```json\s*', '', t)` then `re.sub(r'\s*```$', '', t)`, applied to
the already-stripped response text. -/
def stripFence (s : Str) : Str :=
  let s1 := if (S "```json").isPrefixOf s then (s.drop 7).dropWhile isWs else s
  let r := s1.reverse
  if (S "```").isPrefixOf r then ((r.drop 3).dropWhile isWs).reverse else s1

/-- Python `dict.get` over the decoded object (`json.loads` keeps the last
binding of a duplicated key, hence the reversed lookup). -/
def jget (kvs : List (Str × JVal)) (k : Str) : Option JVal :=
  (kvs.reverse.find? (fun kv => kv.1 = k)).map (fun kv => kv.2)

/-- The Task record as populated by the AI path: src/main.py assigns the
decoded JSON values to the fields unvalidated, so the fields hold `JVal`. -/
structure AITask where
  description : JVal
  assignee : JVal
  due_date : JVal
  priority : JVal
  status : Str := S "Pending"

/-- The field-by-field construction with defaults in `extract_tasks_ai`
(`t.get("description", "")` and friends); `fmt` models
`strftime("%Y-%m-%d")` of the day-number clock. -/
def buildTask (today : Nat) (fmt : Nat → Str) (kvs : List (Str × JVal)) : AITask :=
  { description := (jget kvs (S "description")).getD (JVal.str [])
    assignee := (jget kvs (S "assignee")).getD (JVal.str (S "Unassigned"))
    due_date := (jget kvs (S "due_date")).getD (JVal.str (fmt (today + 7)))
    priority := (jget kvs (S "priority")).getD (JVal.str (S "Medium")) }

/-- The `for t in tasks_data` element loop: any non-object element raises
(`AttributeError` on `.get`), which the outer handler turns into a warning. -/
def mapTaskElems (today : Nat) (fmt : Nat → Str) : List JVal → Option (List AITask)
  | [] => some []
  | JVal.obj kvs :: rest =>
    match mapTaskElems today fmt rest with
    | none => none
    | some ts => some (buildTask today fmt kvs :: ts)
  | _ :: _ => none

/-- `for t in tasks_data` over an arbitrary decoded value: iterating a
non-empty dict or string reaches `.get` on a non-dict and raises; iterating
an empty dict or string runs zero iterations; anything else is not iterable
and raises.  `none` is the raised path (caught as a warning upstream). -/
def tasksFromData (today : Nat) (fmt : Nat → Str) : JVal → Option (List AITask)
  | JVal.arr elems => mapTaskElems today fmt elems
  | JVal.obj [] => some []
  | JVal.obj (_ :: _) => none
  | JVal.str [] => some []
  | JVal.str (_ :: _) => none
  | _ => none

/-- `extract_tasks_ai` of src/main.py.  The external service call is the
function's input: `Except.error` is a raised service failure (network, auth),
`Except.ok` the response text.  The Bool of the result records whether
`st.warning` was invoked.  Prompt construction does not affect the returned
value and is elided; `attendees` only feeds the prompt. -/
def extract_tasks_ai (response : Except Str Str) (attendees : List Str)
    (today : Nat) (fmt : Nat → Str) : List AITask × Bool :=
  match response with
  | Except.error _ => ([], true)
  | Except.ok text =>
    let cleaned := stripFence (pstrip text)
    match json_loads cleaned with
    | none => ([], false)
    | some data =>
      match tasksFromData today fmt data with
      | none => ([], true)
      | some ts => (ts, false)

/-- `extract_summary_ai` of src/main.py: the trimmed response text, or the
error-description string of the `except` branch. -/
def extract_summary_ai (response : Except Str Str) : Str :=
  match response with
  | Except.ok t => pstrip t
  | Except.error e => S "Error generating summary: " ++ e

/-- The Meeting record of src/main.py. -/
structure Meeting where
  id : Str
  title : Str
  date : Str
  duration : Nat
  attendees : List Str
  transcript : Str := []
  summary : Str := []
  tasks : List Task := []
  action_items : List Str := []
  decisions : List Str := []
deriving Repr, DecidableEq

/-- `generate_followup_email_ai` of src/main.py: the prompt embeds the
meeting's fields but the returned value depends only on the service
response, modelled as for `extract_summary_ai`. -/
def generate_followup_email_ai (meeting : Meeting) (response : Except Str Str) : Str :=
  match response with
  | Except.ok t => pstrip t
  | Except.error e => S "Error generating email: " ++ e

/-- The save handler's upsert over `st.session_state.meetings`:
`existing = [m for m in meetings if m.id != meeting.id]; existing.append(meeting)`. -/
def upsert (meetings : List Meeting) (m : Meeting) : List Meeting :=
  (meetings.filter (fun x => x.id ≠ m.id)) ++ [m]

/-- Per-attendee assignee test as the spec words it: the lower-cased name
appears anywhere in the line, or in the speaker label preceding the first
colon (the code adds a redundant `': ' in line` guard to the second
disjunct). -/
def specAttMatches (line att : Str) : Bool :=
  containsSub (lower att) (lower line) ||
    containsSub (lower att) (lower (beforeFirstColon line))

/-- Assignee resolution as the spec words it: first attendee in list order
passing `specAttMatches`, else `"Unassigned"`. -/
def specAssigneeOf (attendees : List Str) (line : Str) : Str :=
  (attendees.find? (fun att => specAttMatches line att)).getD (S "Unassigned")

/-- Topic labels of one line as the spec words it: the after-first-colon
utterance, lower-cased (without the strip the code also applies), tested
against the four keyword sets. -/
def specLineLabels (line : Str) : List Str :=
  if (58 : Nat) ∈ line then
    let content := lower (afterFirstColon line)
    topicKwSets.filterMap (fun p =>
      if p.1.any (fun kw => containsSub kw content) then some p.2 else none)
  else []

/-- A needle is non-empty and free of whitespace code points (every trigger
phrase and topic keyword of src/main.py satisfies this). -/
def wsFreeNe (n : Str) : Prop := n ≠ [] ∧ ∀ c ∈ n, isWs c = false

/-- The empty needle is a substring of everything. -/
theorem containsSub_nil (h : Str) : containsSub [] h = true := by
  induction h with
  | nil => rfl
  | cons c cs ih => simp [containsSub, List.isPrefixOf]

/-- Substring containment survives extending the haystack on the left by one. -/
theorem containsSub_cons {n l : Str} (c : Nat) (h : containsSub n l = true) :
    containsSub n (c :: l) = true := by
  simp [containsSub, h]

/-- Prefixes survive extending the list on the right. -/
theorem isPrefixOf_append {n a : Str} (b : Str) (h : n.isPrefixOf a = true) :
    n.isPrefixOf (a ++ b) = true := by
  induction n generalizing a with
  | nil => simp [List.isPrefixOf]
  | cons x xs ih =>
    cases a with
    | nil => simp [List.isPrefixOf] at h
    | cons y ys =>
      simp only [List.cons_append, List.isPrefixOf, Bool.and_eq_true] at h ⊢
      exact ⟨h.1, ih h.2⟩

/-- Substring containment survives extending the haystack on the right. -/
theorem containsSub_append_right {n a : Str} (b : Str) (h : containsSub n a = true) :
    containsSub n (a ++ b) = true := by
  induction a with
  | nil =>
    cases n with
    | nil => exact containsSub_nil b
    | cons x xs => simp [containsSub, List.isEmpty] at h
  | cons c cs ih =>
    simp only [containsSub, Bool.or_eq_true] at h
    rcases h with h | h
    · simp only [List.cons_append, containsSub, Bool.or_eq_true]
      exact Or.inl (isPrefixOf_append b h)
    · simpa [containsSub] using Or.inr (ih h)

/-- Substring containment survives extending the haystack on the left. -/
theorem containsSub_append_left {n b : Str} (a : Str) (h : containsSub n b = true) :
    containsSub n (a ++ b) = true := by
  induction a with
  | nil => simpa using h
  | cons c cs ih => simpa using containsSub_cons c ih

/-- Containment in a `dropWhile` suffix gives containment in the whole list. -/
theorem containsSub_of_dropWhile {n l : Str} {p : Nat → Bool}
    (h : containsSub n (l.dropWhile p) = true) : containsSub n l = true := by
  induction l with
  | nil => simpa using h
  | cons c cs ih =>
    by_cases hc : p c
    · simp only [List.dropWhile, hc] at h
      exact containsSub_cons c (ih h)
    · simpa [List.dropWhile, hc] using h

/-- Right-trim decomposition: a list is its right-trimmed core plus the
trimmed whitespace tail. -/
theorem rstrip_append (p : Nat → Bool) (m : Str) :
    (m.reverse.dropWhile p).reverse ++ (m.reverse.takeWhile p).reverse = m := by
  have h := List.takeWhile_append_dropWhile (p := p) (l := m.reverse)
  calc (m.reverse.dropWhile p).reverse ++ (m.reverse.takeWhile p).reverse
      = (m.reverse.takeWhile p ++ m.reverse.dropWhile p).reverse := by
        rw [List.reverse_append]
    _ = m := by rw [h, List.reverse_reverse]

/-- Containment in the stripped string gives containment in the original. -/
theorem containsSub_of_pstrip {n l : Str} (h : containsSub n (pstrip l) = true) :
    containsSub n l = true := by
  unfold pstrip at h
  have h2 : containsSub n (l.dropWhile isWs) = true := by
    have := containsSub_append_right
      (((l.dropWhile isWs).reverse.takeWhile isWs).reverse) h
    rwa [rstrip_append] at this
  exact containsSub_of_dropWhile h2

/-- A whitespace-free needle is not contained in an all-whitespace haystack. -/
theorem containsSub_allWs {n b : Str} (hne : n ≠ []) (hws : ∀ c ∈ n, isWs c = false)
    (hb : ∀ c ∈ b, isWs c = true) : containsSub n b = false := by
  induction b with
  | nil =>
    cases n with
    | nil => exact absurd rfl hne
    | cons x xs => rfl
  | cons c cs ih =>
    have hc : isWs c = true := hb c (by simp)
    have hpre : n.isPrefixOf (c :: cs) = false := by
      cases n with
      | nil => exact absurd rfl hne
      | cons x xs =>
        have hx : isWs x = false := hws x (by simp)
        have hxc : (x == c) = false := by
          by_cases hxe : x = c
          · subst hxe; rw [hx] at hc; exact absurd hc (by simp)
          · simp [hxe]
        simp [List.isPrefixOf, hxc]
    have hrest : containsSub n cs = false := ih (fun d hd => hb d (by simp [hd]))
    simp [containsSub, hpre, hrest]

/-- A whitespace-free prefix of `a ++ b` with all-whitespace `b` is a
prefix of `a`. -/
theorem isPrefixOf_of_append_ws {n a b : Str} (hws : ∀ c ∈ n, isWs c = false)
    (hb : ∀ c ∈ b, isWs c = true) (h : n.isPrefixOf (a ++ b) = true) :
    n.isPrefixOf a = true := by
  induction n generalizing a with
  | nil => simp [List.isPrefixOf]
  | cons x xs ih =>
    cases a with
    | nil =>
      simp only [List.nil_append] at h
      cases b with
      | nil => simp [List.isPrefixOf] at h
      | cons c cs =>
        have hx : isWs x = false := hws x (by simp)
        have hc : isWs c = true := hb c (by simp)
        simp only [List.isPrefixOf, Bool.and_eq_true, beq_iff_eq] at h
        rw [h.1, hc] at hx
        exact absurd hx (by simp)
    | cons y ys =>
      simp only [List.cons_append, List.isPrefixOf, Bool.and_eq_true] at h ⊢
      exact ⟨h.1, ih (fun d hd => hws d (by simp [hd])) h.2⟩

/-- A whitespace-free needle contained in `a ++ b` with all-whitespace `b`
is contained in `a`. -/
theorem containsSub_of_append_ws {n a b : Str} (hne : n ≠ [])
    (hws : ∀ c ∈ n, isWs c = false) (hb : ∀ c ∈ b, isWs c = true)
    (h : containsSub n (a ++ b) = true) : containsSub n a = true := by
  induction a with
  | nil =>
    simp only [List.nil_append] at h
    rw [containsSub_allWs hne hws hb] at h
    exact absurd h (by simp)
  | cons c cs ih =>
    simp only [List.cons_append, containsSub, Bool.or_eq_true] at h
    rcases h with h | h
    · have : n.isPrefixOf (c :: cs) = true :=
        isPrefixOf_of_append_ws hws hb (by simpa using h)
      simp [containsSub, this]
    · exact containsSub_cons c (ih h)

/-- A whitespace-free needle contained in a list is contained in its
whitespace-`dropWhile`. -/
theorem containsSub_dropWhile_ws {n l : Str} (hne : n ≠ [])
    (hws : ∀ c ∈ n, isWs c = false) (h : containsSub n l = true) :
    containsSub n (l.dropWhile isWs) = true := by
  induction l with
  | nil => simpa using h
  | cons c cs ih =>
    by_cases hc : isWs c = true
    · simp only [List.dropWhile, hc]
      apply ih
      simp only [containsSub, Bool.or_eq_true] at h
      rcases h with h | h
      · cases n with
        | nil => exact absurd rfl hne
        | cons x xs =>
          have hx : isWs x = false := hws x (by simp)
          simp only [List.isPrefixOf, Bool.and_eq_true, beq_iff_eq] at h
          rw [h.1, hc] at hx
          exact absurd hx (by simp)
      · exact h
    · simpa [List.dropWhile, hc] using h

/-- A whitespace-free needle contained in a list is contained in its strip. -/
theorem containsSub_pstrip_of {n l : Str} (hne : n ≠ [])
    (hws : ∀ c ∈ n, isWs c = false) (h : containsSub n l = true) :
    containsSub n (pstrip l) = true := by
  unfold pstrip
  have h1 : containsSub n (l.dropWhile isWs) = true := containsSub_dropWhile_ws hne hws h
  have hdec := rstrip_append isWs (l.dropWhile isWs)
  have hb : ∀ c ∈ (((l.dropWhile isWs).reverse.takeWhile isWs)).reverse, isWs c = true := by
    intro c hc
    rw [List.mem_reverse] at hc
    exact List.mem_takeWhile_imp hc
  apply containsSub_of_append_ws hne hws hb
  rwa [hdec]

/-- For whitespace-free non-empty needles, containment is invariant under
stripping the haystack. -/
theorem containsSub_pstrip_iff {n l : Str} (hne : n ≠ [])
    (hws : ∀ c ∈ n, isWs c = false) :
    containsSub n (pstrip l) = containsSub n l := by
  by_cases h : containsSub n l = true
  · rw [h, containsSub_pstrip_of hne hws h]
  · rw [Bool.not_eq_true] at h
    rw [h]
    by_cases h2 : containsSub n (pstrip l) = true
    · rw [containsSub_of_pstrip h2] at h
      exact absurd h (by simp)
    · simpa using h2

/-- Lower-casing does not change whether a code point is whitespace. -/
theorem isWs_pyLower (n : Nat) : isWs (pyLower n) = isWs n := by
  unfold pyLower
  split
  · next h =>
    simp only [isWs, decide_eq_decide]
    omega
  · rfl

/-- Lower-casing commutes with dropping leading whitespace. -/
theorem lower_dropWhile (l : Str) :
    lower (l.dropWhile isWs) = (lower l).dropWhile isWs := by
  induction l with
  | nil => rfl
  | cons c cs ih =>
    by_cases hc : isWs c = true
    · have hc2 : isWs (pyLower c) = true := by rw [isWs_pyLower]; exact hc
      simp only [List.dropWhile, lower, List.map_cons, hc, hc2]
      exact ih
    · have hc' : isWs c = false := by simpa using hc
      have hc2 : isWs (pyLower c) = false := by rw [isWs_pyLower]; exact hc'
      simp [List.dropWhile, lower, hc', hc2]

/-- Lower-casing commutes with reversal. -/
theorem lower_reverse (l : Str) : lower l.reverse = (lower l).reverse := by
  simp [lower, List.map_reverse]

/-- Lower-casing commutes with stripping. -/
theorem lower_pstrip (l : Str) : lower (pstrip l) = pstrip (lower l) := by
  unfold pstrip
  rw [lower_reverse, lower_dropWhile, lower_reverse, lower_dropWhile]

/-- Lower-casing distributes over concatenation. -/
theorem lower_append (a b : Str) : lower (a ++ b) = lower a ++ lower b := by
  simp [lower]

/-- For whitespace-free non-empty needles, containment in the lower-cased
strip equals containment in the lower-cased original (the strip the code
applies to summary content is invisible to keyword matching). -/
theorem containsSub_lower_pstrip {n : Str} (hne : n ≠ [])
    (hws : ∀ c ∈ n, isWs c = false) (l : Str) :
    containsSub n (lower (pstrip l)) = containsSub n (lower l) := by
  rw [lower_pstrip]
  exact containsSub_pstrip_iff hne hws

/-- Containment in the lower-cased before-colon label gives containment
in the lower-cased whole line. -/
theorem containsSub_beforeColon {n line : Str}
    (h : containsSub n (lower (beforeFirstColon line)) = true) :
    containsSub n (lower line) = true := by
  have hdec : beforeFirstColon line ++ line.dropWhile (fun c => !(c == 58)) = line :=
    List.takeWhile_append_dropWhile (p := fun c => !(c == 58)) (l := line)
  calc containsSub n (lower line)
      = containsSub n (lower (beforeFirstColon line ++
          line.dropWhile (fun c => !(c == 58)))) := by rw [hdec]
    _ = containsSub n (lower (beforeFirstColon line) ++
          lower (line.dropWhile (fun c => !(c == 58)))) := by rw [lower_append]
    _ = true := containsSub_append_right _ h

/-- The redundant `': ' in line` clause of the assignee test changes
nothing: the code's test equals the spec's test. -/
theorem attMatches_eq_spec (line att : Str) :
    attMatches line att = specAttMatches line att := by
  unfold attMatches specAttMatches
  by_cases h1 : containsSub (lower att) (lower line) = true
  · simp [h1]
  · have h1' : containsSub (lower att) (lower line) = false := by simpa using h1
    rw [h1']
    by_cases h2 : containsSub (lower att) (lower (beforeFirstColon line)) = true
    · rw [containsSub_beforeColon h2] at h1'
      exact absurd h1' (by simp)
    · have h2' : containsSub (lower att) (lower (beforeFirstColon line)) = false := by
        simpa using h2
      simp [h2']

/-- The code's assignee resolution equals the spec's. -/
theorem assigneeOf_eq_spec (attendees : List Str) (line : Str) :
    assigneeOf attendees line = specAssigneeOf attendees line := by
  unfold assigneeOf specAssigneeOf
  have : (fun att => attMatches line att) = (fun att => specAttMatches line att) := by
    funext att
    exact attMatches_eq_spec line att
  rw [this]

/-- The task loop is the filter-map the claims describe: one Task per
matching line, in line order, none for other lines. -/
theorem tasksGo_eq (attendees : List Str) (today : Nat) (ls : List Str) :
    tasksGo attendees today ls =
      (ls.filter matchesTaskKw).map (taskOfLine attendees today) := by
  induction ls with
  | nil => rfl
  | cons line rest ih =>
    by_cases h : matchesTaskKw line = true
    · simp [tasksGo, List.filter, h, ih]
    · have h' : matchesTaskKw line = false := by simpa using h
      simp [tasksGo, List.filter, h', ih]

/-- The decision loop is the filter-map the claims describe. -/
theorem decisionsGo_eq (ls : List Str) :
    decisionsGo ls = (ls.filter matchesDecKw).map descOf := by
  induction ls with
  | nil => rfl
  | cons line rest ih =>
    by_cases h : matchesDecKw line = true
    · simp [decisionsGo, List.filter, h, ih]
    · have h' : matchesDecKw line = false := by simpa using h
      simp [decisionsGo, List.filter, h', ih]

/-- Membership after one set insertion. -/
theorem mem_insertIfNew {x lab : Str} {acc : List Str} :
    x ∈ insertIfNew acc lab ↔ x ∈ acc ∨ x = lab := by
  unfold insertIfNew
  by_cases h : lab ∈ acc
  · simp only [h, if_true]
    constructor
    · exact Or.inl
    · rintro (hx | rfl)
      · exact hx
      · exact h
  · simp [h]

/-- Set insertion preserves freedom from duplicates. -/
theorem nodup_insertIfNew {lab : Str} {acc : List Str} (h : acc.Nodup) :
    (insertIfNew acc lab).Nodup := by
  unfold insertIfNew
  by_cases hm : lab ∈ acc
  · simpa [hm] using h
  · simp only [hm, if_false]
    simp [List.nodup_append, h, hm]

/-- Membership after folding a batch of insertions. -/
theorem mem_foldl_insertIfNew (ls : List Str) :
    ∀ acc x, x ∈ ls.foldl insertIfNew acc ↔ x ∈ acc ∨ x ∈ ls := by
  induction ls with
  | nil => simp
  | cons lab rest ih =>
    intro acc x
    simp only [List.foldl_cons, ih, mem_insertIfNew, List.mem_cons]
    tauto

/-- Folded insertions preserve freedom from duplicates. -/
theorem nodup_foldl_insertIfNew (ls : List Str) :
    ∀ acc : List Str, acc.Nodup → (ls.foldl insertIfNew acc).Nodup := by
  induction ls with
  | nil => intro acc h; simpa using h
  | cons lab rest ih =>
    intro acc h
    exact ih _ (nodup_insertIfNew h)

/-- Membership in the accumulated topic set: exactly the labels some line
contributes. -/
theorem mem_topicsOf (lines : List Str) (x : Str) :
    x ∈ topicsOf lines ↔ ∃ line ∈ lines, x ∈ lineLabels line := by
  unfold topicsOf
  have key : ∀ acc, x ∈ lines.foldl (fun acc line => (lineLabels line).foldl insertIfNew acc) acc ↔
      x ∈ acc ∨ ∃ line ∈ lines, x ∈ lineLabels line := by
    induction lines with
    | nil => simp
    | cons l rest ih =>
      intro acc
      simp only [List.foldl_cons, ih, mem_foldl_insertIfNew, List.mem_cons]
      constructor
      · rintro ((h | h) | ⟨line, hl, hx⟩)
        · exact Or.inl h
        · exact Or.inr ⟨l, Or.inl rfl, h⟩
        · exact Or.inr ⟨line, Or.inr hl, hx⟩
      · rintro (h | ⟨line, (rfl | hl), hx⟩)
        · exact Or.inl (Or.inl h)
        · exact Or.inl (Or.inr hx)
        · exact Or.inr ⟨line, hl, hx⟩
  simpa using key []

/-- The accumulated topic set is duplicate-free. -/
theorem nodup_topicsOf (lines : List Str) : (topicsOf lines).Nodup := by
  unfold topicsOf
  have key : ∀ (ls : List Str) (acc : List Str), acc.Nodup →
      (ls.foldl (fun acc line => (lineLabels line).foldl insertIfNew acc) acc).Nodup := by
    intro ls
    induction ls with
    | nil => intro acc h; simp only [List.foldl_nil]; exact h
    | cons l rest ih =>
      intro acc h
      exact ih _ (nodup_foldl_insertIfNew _ _ h)
  exact key lines [] (by simp)

/-- Pointwise-equal predicates give equal `any`. -/
theorem any_congr_mem {p q : Str → Bool} :
    ∀ {ls : List Str}, (∀ a ∈ ls, p a = q a) → ls.any p = ls.any q
  | [], _ => rfl
  | a :: rest, h => by
    simp only [List.any_cons, h a (by simp)]
    rw [any_congr_mem (fun b hb => h b (by simp [hb]))]

/-- Every topic keyword of src/main.py is non-empty and whitespace-free. -/
theorem topicKws_wsFreeNe :
    ∀ p ∈ topicKwSets, ∀ kw ∈ p.1, kw ≠ [] ∧ ∀ c ∈ kw, isWs c = false := by
  decide

/-- The per-line topic labels are insensitive to the strip the code applies
to the utterance: code form equals spec form. -/
theorem lineLabels_eq_spec (line : Str) : lineLabels line = specLineLabels line := by
  unfold lineLabels specLineLabels
  by_cases h : (58 : Nat) ∈ line
  · simp only [h, if_true]
    apply List.filterMap_congr
    intro p hp
    have hany : p.1.any (fun kw => containsSub kw (lower (pstrip (afterFirstColon line)))) =
        p.1.any (fun kw => containsSub kw (lower (afterFirstColon line))) := by
      apply any_congr_mem
      intro kw hkw
      have hkc := topicKws_wsFreeNe p hp kw hkw
      exact containsSub_lower_pstrip hkc.1 hkc.2 (afterFirstColon line)
    rw [hany]
  · simp [h]

/-- After an upsert, filtering the store by the upserted id leaves exactly
that meeting. -/
theorem filter_upsert_self (ms : List Meeting) (m : Meeting) :
    (upsert ms m).filter (fun x => x.id = m.id) = [m] := by
  unfold upsert
  rw [List.filter_append]
  have h1 : (ms.filter (fun x => x.id ≠ m.id)).filter (fun x => x.id = m.id) = [] := by
    induction ms with
    | nil => rfl
    | cons a rest ih =>
      by_cases ha : a.id = m.id
      · simpa [List.filter, ha] using ih
      · simpa [List.filter, ha] using ih
  rw [h1]
  simp [List.filter]

/-- Upserting a fresh id appends. -/
theorem upsert_fresh (ms : List Meeting) (m : Meeting)
    (h : ∀ x ∈ ms, x.id ≠ m.id) : upsert ms m = ms ++ [m] := by
  unfold upsert
  have : ms.filter (fun x => x.id ≠ m.id) = ms := by
    rw [List.filter_eq_self]
    intro a ha
    simpa using h a ha
  rw [this]

/-- C1: the heuristic `extract_tasks_fallback` produces exactly one Task for
each transcript line whose lower-cased text contains at least one trigger
phrase of `{will, need to, should, action item, todo, task, follow up,
deadline}` - several matching phrases still give one Task - and no Task for
any other line; in particular a transcript with no matching line yields the
empty sequence. -/
theorem C1_one_task_per_matching_line (t : Str) (attendees : List Str) (today : Nat) :
    extract_tasks_fallback t attendees today =
      ((splitLines t).filter matchesTaskKw).map (taskOfLine attendees today) ∧
    ((∀ line ∈ splitLines t, matchesTaskKw line = false) →
      extract_tasks_fallback t attendees today = []) := by
  refine ⟨tasksGo_eq attendees today (splitLines t), ?_⟩
  intro h
  rw [extract_tasks_fallback, tasksGo_eq]
  have : (splitLines t).filter matchesTaskKw = [] := by
    rw [List.filter_eq_nil_iff]
    intro a ha
    simp [h a ha]
  rw [this]
  rfl

/-- Witness for C1 at a transcript with no trigger phrase. -/
theorem C1_witness : extract_tasks_fallback (S "Alice: hello everyone") [] 0 = [] :=
  (C1_one_task_per_matching_line (S "Alice: hello everyone") [] 0).2 (by decide)

/-- C2: for every line yielding a heuristic Task, the assignee is the first
attendee in list order whose lower-cased name appears in the line or in the
speaker label before the first colon, else "Unassigned"; the priority is
High on urgent/asap/critical, else Low on "when possible"/"eventually",
else Medium; the due date is today+1 on "tomorrow", else today+5 on
"end of week", else today+7. -/
theorem C2_task_field_rules (attendees : List Str) (today : Nat) (line : Str) :
    (taskOfLine attendees today line).assignee = specAssigneeOf attendees line ∧
    (taskOfLine attendees today line).priority =
      (if containsSub (S "urgent") (lower line) || containsSub (S "asap") (lower line) ||
          containsSub (S "critical") (lower line) then S "High"
       else if containsSub (S "when possible") (lower line) ||
          containsSub (S "eventually") (lower line) then S "Low"
       else S "Medium") ∧
    (taskOfLine attendees today line).due_date =
      (if containsSub (S "tomorrow") (lower line) then today + 1
       else if containsSub (S "end of week") (lower line) then today + 5
       else today + 7) :=
  ⟨assigneeOf_eq_spec attendees line, rfl, rfl⟩

/-- C3 counterexample: the claim omits the trimming the code applies; on the
line "Bob: will review the doc" the code's stored description is
"will review the doc" while the claim predicts the untrimmed after-colon
text " will review the doc". -/
theorem C3_counterexample :
    (extract_tasks_fallback (S "Bob: will review the doc") [] 0).map Task.description ≠
      [(afterFirstColon (S "Bob: will review the doc")).take 100] := by
  decide

/-- C3 (amended): every heuristic Task's description is the text after the
line's first colon when a colon is present, otherwise the whole line,
trimmed of surrounding whitespace and then truncated to at most 100
characters; when the trimmed text is longer than 100 characters the stored
description has exactly 100 characters. -/
theorem C3_description_trimmed_truncated (t : Str) (attendees : List Str) (today : Nat)
    (task : Task) (h : task ∈ extract_tasks_fallback t attendees today) :
    ∃ line ∈ splitLines t, matchesTaskKw line = true ∧
      task.description =
        (pstrip (if (58 : Nat) ∈ line then afterFirstColon line else line)).take 100 ∧
      task.description.length ≤ 100 ∧
      (100 < (descOf line).length → task.description.length = 100) := by
  rw [extract_tasks_fallback, tasksGo_eq] at h
  obtain ⟨line, hline, rfl⟩ := List.mem_map.mp h
  obtain ⟨hmem, hmatch⟩ := List.mem_filter.mp hline
  refine ⟨line, hmem, hmatch, rfl, ?_, ?_⟩
  · simp [taskOfLine, List.length_take]
  · intro hlen
    simp only [taskOfLine, List.length_take]
    omega

/-- Witness for C3 on a line whose trimmed description has 110 characters. -/
theorem C3_witness :
    ∃ line ∈ splitLines
        (S "task: aaaaaaaaaaaaaaaaaaaaaaaaaaaaaaaaaaaaaaaaaaaaaaaaaaaaaaaaaaaaaaaaaaaaaaaaaaaaaaaaaaaaaaaaaaaaaaaaaaaaaaaaaa"),
      matchesTaskKw line = true ∧
      (taskOfLine [] 0 (S "task: aaaaaaaaaaaaaaaaaaaaaaaaaaaaaaaaaaaaaaaaaaaaaaaaaaaaaaaaaaaaaaaaaaaaaaaaaaaaaaaaaaaaaaaaaaaaaaaaaaaaaaaaaa")).description =
        (pstrip (if (58 : Nat) ∈ line then afterFirstColon line else line)).take 100 ∧
      (taskOfLine [] 0 (S "task: aaaaaaaaaaaaaaaaaaaaaaaaaaaaaaaaaaaaaaaaaaaaaaaaaaaaaaaaaaaaaaaaaaaaaaaaaaaaaaaaaaaaaaaaaaaaaaaaaaaaaaaaaa")).description.length ≤ 100 ∧
      (100 < (descOf line).length →
        (taskOfLine [] 0 (S "task: aaaaaaaaaaaaaaaaaaaaaaaaaaaaaaaaaaaaaaaaaaaaaaaaaaaaaaaaaaaaaaaaaaaaaaaaaaaaaaaaaaaaaaaaaaaaaaaaaaaaaaaaaa")).description.length = 100) :=
  C3_description_trimmed_truncated
    (S "task: aaaaaaaaaaaaaaaaaaaaaaaaaaaaaaaaaaaaaaaaaaaaaaaaaaaaaaaaaaaaaaaaaaaaaaaaaaaaaaaaaaaaaaaaaaaaaaaaaaaaaaaaaa")
    [] 0
    (taskOfLine [] 0
      (S "task: aaaaaaaaaaaaaaaaaaaaaaaaaaaaaaaaaaaaaaaaaaaaaaaaaaaaaaaaaaaaaaaaaaaaaaaaaaaaaaaaaaaaaaaaaaaaaaaaaaaaaaaaaa"))
    (by decide)

/-- C4: the heuristic summary is "Meeting covered \x7bN\x7d discussion
points" with N the transcript's line count, with " including: \x7blabels\x7d."
appended exactly when the deduplicated topic set is non-empty; a line
contributes a label exactly when its after-first-colon utterance,
lower-cased, contains a keyword of the corresponding set. -/
theorem C4_summary_shape (t : Str) :
    extract_summary_fallback t =
      S "Meeting covered " ++ natToStr (splitLines t).length ++ S " discussion points" ++
        (if (topicsOf (splitLines t)).isEmpty then []
         else S " including: " ++ List.intercalate (S ", ") (topicsOf (splitLines t)) ++ S ".") ∧
    (topicsOf (splitLines t)).Nodup ∧
    (∀ lab, lab ∈ topicsOf (splitLines t) ↔ ∃ line ∈ splitLines t, lab ∈ specLineLabels line) := by
  refine ⟨rfl, nodup_topicsOf _, ?_⟩
  intro lab
  rw [mem_topicsOf]
  simp only [lineLabels_eq_spec]

/-- C5: the heuristic `extract_decisions_fallback` emits, for each line whose
lower-cased text contains a phrase of `{decided, agreed, approved, confirmed,
will go with, final decision}`, the text after the first colon if present,
else the whole line, trimmed, without deduplication or truncation; a
transcript with no such line yields the empty sequence. -/
theorem C5_decisions_per_matching_line (t : Str) :
    extract_decisions_fallback t =
      ((splitLines t).filter matchesDecKw).map
        (fun line => pstrip (if (58 : Nat) ∈ line then afterFirstColon line else line)) ∧
    ((∀ line ∈ splitLines t, matchesDecKw line = false) →
      extract_decisions_fallback t = []) := by
  constructor
  · exact decisionsGo_eq (splitLines t)
  · intro h
    rw [extract_decisions_fallback, decisionsGo_eq]
    have : (splitLines t).filter matchesDecKw = [] := by
      rw [List.filter_eq_nil_iff]
      intro a ha
      simp [h a ha]
    rw [this]
    rfl

/-- Witness for C5 at a transcript with no decision phrase. -/
theorem C5_witness : extract_decisions_fallback (S "Alice: hello everyone") = [] :=
  (C5_decisions_per_matching_line (S "Alice: hello everyone")).2 (by decide)

/-- C6: the AI task extraction strips an optional leading fenced marker and
optional trailing fence from the stripped response, decodes the remainder as
JSON; a decode failure yields the empty sequence without raising; a raised
service failure yields the empty sequence plus a warning; fenced and
unfenced "[]" give the empty sequence, and "not json" gives the empty
sequence without raising. -/
theorem C6_ai_task_response_handling (attendees : List Str) (today : Nat) (fmt : Nat → Str) :
    (∀ e, extract_tasks_ai (Except.error e) attendees today fmt = ([], true)) ∧
    (∀ s, json_loads (stripFence (pstrip s)) = none →
      extract_tasks_ai (Except.ok s) attendees today fmt = ([], false)) ∧
    (∀ s elems ts, json_loads (stripFence (pstrip s)) = some (JVal.arr elems) →
      mapTaskElems today fmt elems = some ts →
      extract_tasks_ai (Except.ok s) attendees today fmt = (ts, false)) ∧
    extract_tasks_ai (Except.ok (S "```json\n[]\n```")) attendees today fmt = ([], false) ∧
    extract_tasks_ai (Except.ok (S "[]")) attendees today fmt = ([], false) ∧
    extract_tasks_ai (Except.ok (S "not json")) attendees today fmt = ([], false) := by
  refine ⟨fun e => rfl, ?_, ?_, rfl, rfl, rfl⟩
  · intro s h
    simp [extract_tasks_ai, h]
  · intro s elems ts h1 h2
    simp [extract_tasks_ai, h1, tasksFromData, h2]

/-- Witness for C6 at the malformed response "oops". -/
theorem C6_witness : extract_tasks_ai (Except.ok (S "oops")) [] 0 natToStr = ([], false) :=
  (C6_ai_task_response_handling [] 0 natToStr).2.1 (S "oops") (by rfl)

/-- C7: for every behaviour of the external service, including a raised
failure, the AI summary and follow-up-email operations return a string: the
trimmed response on success and an error-description string on failure, so
no failure aborts the pipeline. -/
theorem C7_ai_text_ops_never_raise (meeting : Meeting) (e t : Str) :
    extract_summary_ai (Except.error e) = S "Error generating summary: " ++ e ∧
    extract_summary_ai (Except.ok t) = pstrip t ∧
    generate_followup_email_ai meeting (Except.error e) = S "Error generating email: " ++ e ∧
    generate_followup_email_ai meeting (Except.ok t) = pstrip t :=
  ⟨rfl, rfl, rfl, rfl⟩

/-- C8: with the clock passed explicitly, the heuristic extractors are pure
functions of transcript and attendees, so two calls on identical inputs
return identical (byte-identical) output. -/
theorem C8_heuristic_idempotent (t : Str) (attendees : List Str) (today : Nat) :
    (extract_summary_fallback t, extract_tasks_fallback t attendees today,
      extract_decisions_fallback t) =
    (extract_summary_fallback t, extract_tasks_fallback t attendees today,
      extract_decisions_fallback t) := rfl

/-- C9: after `upsert m` the store holds exactly one record with id `m.id`,
namely `m` itself; a second upsert under the same id leaves exactly the
second meeting; a fresh id is appended, preserving insertion order. -/
theorem C9_upsert_by_id (ms : List Meeting) (m : Meeting) :
    (upsert ms m).filter (fun x => x.id = m.id) = [m] ∧
    (∀ m2 : Meeting, m2.id = m.id →
      (upsert (upsert ms m) m2).filter (fun x => x.id = m2.id) = [m2]) ∧
    ((∀ x ∈ ms, x.id ≠ m.id) → upsert ms m = ms ++ [m]) := by
  refine ⟨filter_upsert_self ms m, ?_, upsert_fresh ms m⟩
  intro m2 _
  exact filter_upsert_self (upsert ms m) m2

/-- Witness for C9 at two concrete meetings with distinct ids. -/
theorem C9_witness :
    upsert [{ id := S "20240101000000", title := S "standup", date := S "2024-01-01",
              duration := 30, attendees := [S "Alice"] }]
        { id := S "20240102000000", title := S "retro", date := S "2024-01-02",
          duration := 60, attendees := [S "Bob"] } =
      [{ id := S "20240101000000", title := S "standup", date := S "2024-01-01",
         duration := 30, attendees := [S "Alice"] }] ++
        [{ id := S "20240102000000", title := S "retro", date := S "2024-01-02",
           duration := 60, attendees := [S "Bob"] }] :=
  (C9_upsert_by_id
    [{ id := S "20240101000000", title := S "standup", date := S "2024-01-01",
       duration := 30, attendees := [S "Alice"] }]
    { id := S "20240102000000", title := S "retro", date := S "2024-01-02",
      duration := 60, attendees := [S "Bob"] }).2.2 (by decide)

/-- C10: the AI task extraction maps decoded array elements to Tasks
verbatim without validation - a well-formed response yields an assignee
outside the attendee list and distinct from "Unassigned" and a priority
outside High/Medium/Low - and a missing key is replaced by its default:
empty string, "Unassigned", today+7 formatted, and "Medium". -/
theorem C10_ai_tasks_unvalidated (today : Nat) (fmt : Nat → Str) :
    extract_tasks_ai
        (Except.ok (S "[\x7b\"description\": \"Review\", \"assignee\": \"Mallory\", \"due_date\": \"2099-01-01\", \"priority\": \"Urgent\"\x7d]"))
        [S "Alice"] today fmt =
      ([{ description := JVal.str (S "Review"), assignee := JVal.str (S "Mallory"),
          due_date := JVal.str (S "2099-01-01"), priority := JVal.str (S "Urgent") }], false) ∧
    S "Mallory" ∉ [S "Alice"] ∧
    S "Mallory" ≠ S "Unassigned" ∧
    S "Urgent" ∉ [S "High", S "Medium", S "Low"] ∧
    (∀ kvs, jget kvs (S "description") = none →
      (buildTask today fmt kvs).description = JVal.str []) ∧
    (∀ kvs, jget kvs (S "assignee") = none →
      (buildTask today fmt kvs).assignee = JVal.str (S "Unassigned")) ∧
    (∀ kvs, jget kvs (S "due_date") = none →
      (buildTask today fmt kvs).due_date = JVal.str (fmt (today + 7))) ∧
    (∀ kvs, jget kvs (S "priority") = none →
      (buildTask today fmt kvs).priority = JVal.str (S "Medium")) ∧
    extract_tasks_ai (Except.ok (S "[\x7b\x7d]")) [S "Alice"] today fmt =
      ([{ description := JVal.str [], assignee := JVal.str (S "Unassigned"),
          due_date := JVal.str (fmt (today + 7)), priority := JVal.str (S "Medium") }], false) := by
  refine ⟨rfl, by decide, by decide, by decide, ?_, ?_, ?_, ?_, rfl⟩
  all_goals
    intro kvs h
    simp [buildTask, h]

/-- Witness for C10: the due-date default at the empty object. -/
theorem C10_witness : (buildTask 0 natToStr []).due_date = JVal.str (natToStr 7) :=
  (C10_ai_tasks_unvalidated 0 natToStr).2.2.2.2.2.2.1 [] (by rfl)

end MeetingAgent
